import Mathlib

/-!
Verification of the process-supervision core of `sanic.worker.manager`
(`WorkerManager` in `src/sanic/worker/manager.py`).

The manager itself is embedded from the source file. The collaborating
classes `ProcessState`, `WorkerProcess` and `Worker` live in
`sanic/worker/process.py`, which is not part of the reviewed sources;
those definitions are modelled from the specification (each such
definition carries a doc comment starting with `Modelled from the spec:`).

Conventions of the embedding:
* Python dicts become association lists (`List (String × _)`) with
  CPython's semantics: assignment to an existing key overwrites in place,
  assignment to a fresh key appends; iteration follows insertion order.
* The shared worker-state table is a `List (String × StateEntry)`; the
  external interface guarantees the `state` field of an entry is a string
  matching a `ProcessState` name (spec §6), so it is typed
  `Option ProcessState` (`none` = key absent or falsy).
* Raising an exception becomes `Except String _`.
* Randomness (`random.choice`) is an explicit `pick : Nat` index.
* OS effects (sending signals, spawning processes) are recorded in the
  returned data (e.g. lists of process names signalled) rather than
  performed.
-/

namespace Sanic

/-- Ordered lifecycle enum shared between controller and worker
(`ProcessState` in `sanic/worker/process.py`, modelled from the spec:
`IDLE < STARTED < ACKED < JOINED < TERMINATED < FAILED`). -/
inductive ProcessState where
  | IDLE
  | STARTED
  | ACKED
  | JOINED
  | TERMINATED
  | FAILED
deriving DecidableEq

/-- Numeric value backing the order of `ProcessState`. -/
def ProcessState.toNat : ProcessState → Nat
  | .IDLE => 0
  | .STARTED => 1
  | .ACKED => 2
  | .JOINED => 3
  | .TERMINATED => 4
  | .FAILED => 5

/-- One entry of the shared worker-state table. The real table maps a
process name to a dict with at least `pid`, `state` and an optional
truthy `server` marker (spec §6); only the fields the manager reads are
kept. `state = none` models both a missing `state` key and a falsy
value, and the `server` Bool models truthiness of the marker. -/
structure StateEntry where
  server : Bool
  state : Option ProcessState
deriving DecidableEq

/-- The shared worker-state table (`worker_state`): process name to entry,
in insertion order. -/
abbrev StateTable := List (String × StateEntry)

/-- Model of Python's `str.startswith`, stated on the character data. -/
def strStartsWith (s pre : String) : Bool :=
  List.isPrefixOf pre.data s.data

/-- Embedding of `WorkerManager._all_workers_ack`:
`acked = [ws.get("state") == ProcessState.ACKED.name
          for ws in self.worker_state.values() if ws.get("server")]`,
then `all(acked) and len(acked) == self.num_server`. -/
def all_workers_ack (worker_state : StateTable) (num_server : Int) : Bool :=
  let acked :=
    ((worker_state.map Prod.snd).filter (fun ws => ws.server)).map
      (fun ws => ws.state == some ProcessState.ACKED)
  acked.all (fun b => b) && ((acked.length : Int) == num_server)

/-- Restart order for a worker process (`RestartOrder` in
`sanic/worker/constants.py`, modelled from the spec: whether a
replacement process is started before (`STARTUP_FIRST`) or after
(`SHUTDOWN_FIRST`) the old one is terminated). -/
inductive RestartOrder where
  | SHUTDOWN_FIRST
  | STARTUP_FIRST
deriving DecidableEq

/-- Modelled from the spec: `WorkerProcess` in `sanic/worker/process.py`
(not under the reviewed sources). One OS-level process instance with a
stable `name`, a `pid` defined once started, a `ProcessState`, a restart
count, and a record of whether a graceful termination signal has been
sent (`terminate()` sends the signal; the state itself moves via the
manager's reconciliation). The launch target and kwargs are omitted:
no reviewed behaviour inspects them. -/
structure WorkerProcess where
  name : String
  pid : Option Nat
  state : ProcessState
  restarts : Nat
  term_sent : Bool
deriving DecidableEq

/-- Modelled from the spec: `WorkerProcess.set_state(state, force)` —
without `force` it rejects regressions below the current state; with
`force` it always overwrites. -/
def WorkerProcess.set_state (p : WorkerProcess) (s : ProcessState) (force : Bool) :
    WorkerProcess :=
  if force || p.state.toNat ≤ s.toNat then { p with state := s } else p

/-- Modelled from the spec: `WorkerProcess.start()` launches the OS
process, transitions the state to `STARTED` and records the pid. The pid
is OS-assigned; it is passed in explicitly here. -/
def WorkerProcess.start (p : WorkerProcess) (pid : Nat) : WorkerProcess :=
  { p with state := .STARTED, pid := some pid }

/-- Modelled from the spec: `WorkerProcess.terminate()` sends a graceful
termination signal, idempotently. Only the fact that the signal was sent
is recorded; the state moves via reconciliation. -/
def WorkerProcess.terminate (p : WorkerProcess) : WorkerProcess :=
  { p with term_sent := true }

/-- Modelled from the spec: `WorkerProcess.is_alive()` is true iff the OS
process is running; modelled as: started (pid recorded) and no
termination signal sent yet. -/
def WorkerProcess.is_alive (p : WorkerProcess) : Bool :=
  p.pid.isSome && !p.term_sent

/-- Modelled from the spec: `WorkerProcess.restart(restart_order,
**kwargs)` stops the current instance and starts a replacement under the
same name with a fresh pid, incrementing the restart count. The restart
order and extra kwargs affect the interleaving of the OS-level stop and
start, not the bookkeeping modelled here; the fresh OS-assigned pid is
abstracted as the successor of the old one. -/
def WorkerProcess.restart (p : WorkerProcess) (_order : RestartOrder) : WorkerProcess :=
  { p with restarts := p.restarts + 1, state := .STARTED,
           pid := p.pid.map Nat.succ, term_sent := false }

/-- Modelled from the spec: `Worker` in `sanic/worker/process.py` — a
named logical unit owning an ordered collection of `WorkerProcess`
children. The shared launch target and kwargs are omitted as in
`WorkerProcess`. -/
structure Worker where
  ident : String
  processes : List WorkerProcess
deriving DecidableEq

/-- Modelled from the spec: constructing a `Worker` with a process count
creates that many `WorkerProcess` children, each given a derived unique
name (the ident itself for a single process, ident plus index when the
count exceeds one), initially with no pid and state `IDLE`. -/
def Worker.make (ident : String) (workers : Nat) : Worker :=
  if workers = 1 then ⟨ident, [⟨ident, none, .IDLE, 0, false⟩]⟩
  else
    ⟨ident,
      (List.range workers).map
        (fun i => ⟨ident ++ "-" ++ Nat.repr i, none, .IDLE, 0, false⟩)⟩

/-- CPython dict assignment `d[k] = v` on an association list: overwrite
in place if the key exists, else append (insertion order preserved). -/
def dictSet (d : List (String × Worker)) (k : String) (v : Worker) :
    List (String × Worker) :=
  if d.any (fun p => p.1 == k) then
    d.map (fun p => if p.1 == k then (k, v) else p)
  else d ++ [(k, v)]

/-- CPython dict deletion `del d[k]` on an association list (the key is
known to be present at every call site in the source). -/
def dictDelete (d : List (String × Worker)) (k : String) :
    List (String × Worker) :=
  d.filter (fun p => p.1 != k)

/-- The constant `WorkerProcess.SERVER_LABEL` lives in `sanic/worker/process.py`.
Modelled from the spec: the label prefixing every server worker ident;
the claims depend only on server idents sharing this prefix. -/
def SERVER_LABEL : String := "Sanic-Server"

/-- The ident generated for the `n`-th server worker:
`f"{WorkerProcess.SERVER_LABEL}-{server_number}"`. -/
def serverIdent (n : Nat) : String :=
  SERVER_LABEL ++ "-" ++ Nat.repr n

/-- Embedding of `WorkerManager`: the supervisor state. `monitor_pubsub`,
`worker_state`, `serve` and `server_settings` are external collaborators
passed to the operations that use them rather than stored. -/
structure WorkerManager where
  num_server : Int
  transient : List (String × Worker)
  durable : List (String × Worker)
  server_count : Nat
  shutting_down : Bool
deriving DecidableEq

/-- Embedding of `WorkerManager.workers`: transient values then durable values. -/
def WorkerManager.workers (m : WorkerManager) : List Worker :=
  m.transient.map Prod.snd ++ m.durable.map Prod.snd

/-- Embedding of `WorkerManager.processes`: every process of every worker. -/
def WorkerManager.processes (m : WorkerManager) : List WorkerProcess :=
  m.workers.flatMap (fun w => w.processes)

/-- Embedding of `WorkerManager.transient_processes`. -/
def WorkerManager.transient_processes (m : WorkerManager) : List WorkerProcess :=
  (m.transient.map Prod.snd).flatMap (fun w => w.processes)

/-- Embedding of `WorkerManager.manage(ident, func, kwargs, transient, workers)`:
construct a `Worker` and store it under its ident in the transient or
durable table. `func`/`kwargs` are omitted as in `Worker`. -/
def WorkerManager.manage (m : WorkerManager) (ident : String)
    (transient : Bool) (workers : Nat) : WorkerManager :=
  let worker := Worker.make ident workers
  if transient then { m with transient := dictSet m.transient worker.ident worker }
  else { m with durable := dictSet m.durable worker.ident worker }

/-- Embedding of `WorkerManager.create_server`: draw the next server number from the
monotonic counter and `manage` a transient worker named
`f"{SERVER_LABEL}-{server_number}"` with the stored serve target. -/
def WorkerManager.create_server (m : WorkerManager) : WorkerManager :=
  let server_number := m.server_count
  WorkerManager.manage { m with server_count := server_number + 1 }
    (serverIdent server_number) true 1

/-- The state of a `WorkerManager` as `__init__` has it immediately
before the `number == 0` check (attributes assigned, no workers created
yet). -/
def WorkerManager.initial (number : Int) : WorkerManager :=
  { num_server := number, transient := [], durable := [],
    server_count := 0, shutting_down := false }

/-- Embedding of `WorkerManager.__init__(number, ...)`: assign the attributes, raise
`RuntimeError("Cannot serve with no workers")` when `number == 0`, then
run `create_server()` once per element of `range(number)` (empty for a
negative `number`). Registering the `SIGINT`/`SIGTERM` handlers is an OS
effect outside the model. -/
def WorkerManager.init (number : Int) : Except String WorkerManager :=
  if number == 0 then Except.error "Cannot serve with no workers"
  else
    Except.ok
      ((List.range number.toNat).foldl
        (fun m _ => m.create_server) (WorkerManager.initial number))

/-- The transient workers whose ident starts with the server label, in
table order (the `servers` list of `shutdown_server`). -/
def WorkerManager.serverWorkers (m : WorkerManager) : List Worker :=
  (m.transient.map Prod.snd).filter
    (fun w => strStartsWith w.ident SERVER_LABEL)

/-- The `ident is None` branch of `WorkerManager.shutdown_server`: pick a
random current server worker (`random.choice`, modelled by the `pick`
index), terminate its processes and delete it from the transient table;
when no server is found, log an error and return without side effects.
The chosen worker's processes receive the termination signal and are
dropped from the bookkeeping together with their worker. -/
def WorkerManager.shutdown_server_none (m : WorkerManager) (pick : Nat) :
    WorkerManager :=
  let servers := m.serverWorkers
  if servers.isEmpty then m
  else
    let worker := servers.getD (pick % servers.length) ⟨"", []⟩
    { m with transient := dictDelete m.transient worker.ident }

/-- Embedding of `WorkerManager.shutdown_server(ident)`: with a falsy ident, the
random branch above; with an ident, a direct lookup in the transient
table whose `KeyError` propagates, then terminate the worker's processes
and delete it. -/
def WorkerManager.shutdown_server (m : WorkerManager) (ident : Option String)
    (pick : Nat) : Except String WorkerManager :=
  match ident with
  | none => Except.ok (m.shutdown_server_none pick)
  | some id =>
    if id = "" then Except.ok (m.shutdown_server_none pick)
    else
      match m.transient.find? (fun p => p.1 == id) with
      | none => Except.error ("KeyError: " ++ id)
      | some (_, worker) =>
        Except.ok { m with transient := dictDelete m.transient worker.ident }

/-- The body of `scale`'s increase loop: `create_server()` followed by
`process.start()` on each process of the new worker (OS-assigned pids
abstracted as 0). -/
def WorkerManager.create_server_started (m : WorkerManager) : WorkerManager :=
  let ident := serverIdent m.server_count
  let m' := m.create_server
  { m' with
      transient :=
        m'.transient.map
          (fun p =>
            if p.1 == ident then
              (p.1, ⟨p.2.ident, p.2.processes.map (fun q => q.start 0)⟩)
            else p) }

/-- Embedding of `WorkerManager.scale(num_worker)`: raise
`ValueError("Cannot scale to 0 workers.")` for a non-positive target;
no-op (logged) when the target equals `num_server`; otherwise create and
start the additional servers, or shut down `abs(change)` randomly chosen
servers (`picks` supplies the random indices, one per iteration); finally
record the new target count. -/
def WorkerManager.scale (m : WorkerManager) (num_worker : Int)
    (picks : List Nat) : Except String WorkerManager :=
  if num_worker ≤ 0 then Except.error "Cannot scale to 0 workers."
  else
    let change := num_worker - m.num_server
    if change = 0 then Except.ok m
    else if 0 < change then
      let m' :=
        (List.range change.toNat).foldl
          (fun acc _ => acc.create_server_started) m
      Except.ok { m' with num_server := num_worker }
    else
      let m' :=
        (List.range change.natAbs).foldl
          (fun acc i => acc.shutdown_server_none (picks.getD i 0)) m
      Except.ok { m' with num_server := num_worker }

/-- The filter of `WorkerManager.restart`:
`if not process_names or process.name in process_names` (Python `not`
is true for both `None` and an empty list). -/
def shouldRestart (process_names : Option (List String)) (name : String) : Bool :=
  match process_names with
  | none => true
  | some l => l.isEmpty || l.contains name

/-- Embedding of `WorkerManager.restart(process_names, restart_order, **kwargs)`:
invoke `restart` on every transient process passing the filter. The
second component records, in iteration order, the names of the processes
whose `restart` was invoked (the observable effect of the loop);
`reloaded_files` and other kwargs are forwarded to the processes and do
not affect the bookkeeping. -/
def WorkerManager.restart (m : WorkerManager)
    (process_names : Option (List String)) (order : RestartOrder) :
    WorkerManager × List String :=
  ({ m with
      transient :=
        m.transient.map
          (fun p =>
            (p.1,
              ⟨p.2.ident,
                p.2.processes.map
                  (fun q =>
                    if shouldRestart process_names q.name then q.restart order
                    else q)⟩)) },
    (m.transient_processes.filter
        (fun q => shouldRestart process_names q.name)).map
      (fun q => q.name))

/-- Embedding of `WorkerManager.shutdown()`: terminate every still-alive process and
set the shutting-down flag. -/
def WorkerManager.shutdown (m : WorkerManager) : WorkerManager :=
  let term := fun (w : Worker) =>
    Worker.mk w.ident
      (w.processes.map (fun p => if p.is_alive then p.terminate else p))
  { m with
      transient := m.transient.map (fun p => (p.1, term p.2)),
      durable := m.durable.map (fun p => (p.1, term p.2)),
      shutting_down := true }

/-- Embedding of `WorkerManager.kill()`: runs `os.kill(process.pid, SIGKILL)` for every
tracked process, then `raise ServerKilled`. The first component records
the processes signalled (by name); the second is the unconditional
`ServerKilled` raise. -/
def WorkerManager.kill (m : WorkerManager) : List String × Bool :=
  (m.processes.map (fun p => p.name), true)

/-- Everything observable about one invocation of
`WorkerManager.shutdown_signal`. -/
structure SignalOutcome where
  /-- names of the processes sent `SIGKILL` by `kill()` -/
  killed : List String
  /-- whether `ServerKilled` escapes the handler to its caller -/
  server_killed_raised : Bool
  /-- whether `monitor_publisher.send(None)` was performed -/
  sent_stop : Bool
  manager : WorkerManager
deriving DecidableEq

/-- Embedding of `WorkerManager.shutdown_signal(signal, frame)`: when already shutting
down, call `kill()` under `contextlib.suppress(ServerKilled)` — the
`SIGKILL`s are sent but the `ServerKilled` raise is swallowed — and then
fall through (there is no early return) to the normal path: log, send the
`None` stop sentinel on the monitor publisher, and `shutdown()`. -/
def WorkerManager.shutdown_signal (m : WorkerManager) : SignalOutcome :=
  if m.shutting_down then
    { killed := (m.kill).1, server_killed_raised := false,
      sent_stop := true, manager := m.shutdown }
  else
    { killed := [], server_killed_raised := false,
      sent_stop := true, manager := m.shutdown }

/-- Embedding of `WorkerManager._sync_states` on one process: look the process name up
in the shared table (`KeyError` → force `TERMINATED`); with an entry
present, `if state and process.state.name != state:` force-adopt the
reported state. -/
def syncProcess (worker_state : StateTable) (p : WorkerProcess) : WorkerProcess :=
  match (worker_state.find? (fun e => e.1 == p.name)).map Prod.snd with
  | none => p.set_state .TERMINATED true
  | some entry =>
    match entry.state with
    | none => p
    | some s => if p.state ≠ s then p.set_state s true else p

/-- Embedding of `WorkerManager._sync_states`: reconcile every tracked process against
the shared table. -/
def WorkerManager.sync_states (m : WorkerManager) (worker_state : StateTable) :
    WorkerManager :=
  let syncW := fun (w : Worker) =>
    Worker.mk w.ident (w.processes.map (syncProcess worker_state))
  { m with
      transient := m.transient.map (fun p => (p.1, syncW p.2)),
      durable := m.durable.map (fun p => (p.1, syncW p.2)) }

/-- The constant `WorkerProcess.THRESHOLD` lives in `sanic/worker/process.py`.
Modelled from the spec: the ack-barrier retry bound, tuned so that
threshold × the 0.1 s poll interval gives the documented grace period
(`THRESHOLD / 10` seconds in the manager's diagnostic). No reviewed
behaviour depends on the exact value. -/
def THRESHOLD : Nat := 30

/-- What one pass of a poll loop observed on the subscriber channel:
`none` for a poll timeout, `some msg` for a received message. Python's
`recv` can also yield `None`; that is modelled as the empty string,
which the manager treats identically (both are falsy). -/
abbrev Poll := Option String

/-- Outcome of one iteration of the `wait_for_ack` polling loop (entered
with the barrier still unsatisfied). -/
inductive AckStep where
  /-- a non-ack-related message was forwarded to the manager's own
  publisher and the loop continued without touching the miss counter -/
  | forwarded (msg : String) (misses : Nat)
  /-- the loop keeps polling with the updated miss counter -/
  | waiting (misses : Nat)
  /-- the miss counter exceeded the threshold: the diagnostic is logged
  and `kill()` runs (SIGKILL to every process, then `raise ServerKilled`) -/
  | killed
deriving DecidableEq

/-- One iteration of the `while not self._all_workers_ack():` loop of
`WorkerManager.wait_for_ack`: a received message other than
`"__TERMINATE_EARLY__"` is re-sent on the publisher and the iteration
ends (`continue`); `"__TERMINATE_EARLY__"` jumps the miss counter to the
threshold (and swaps in the early-termination diagnostic); then the
counter is incremented and checked against the threshold. -/
def ackIteration (misses : Nat) (poll : Poll) : AckStep :=
  match poll with
  | some monitor_msg =>
    if monitor_msg ≠ "__TERMINATE_EARLY__" then
      AckStep.forwarded monitor_msg misses
    else
      let misses := THRESHOLD
      let misses := misses + 1
      if misses > THRESHOLD then AckStep.killed else AckStep.waiting misses
  | none =>
    let misses := misses + 1
    if misses > THRESHOLD then AckStep.killed else AckStep.waiting misses

/-- Helper of `splitChar`: split a character list at every occurrence of
the separator, `acc` holding the current (reversed) piece. -/
def splitCharGo (c : Char) : List Char → List Char → List (List Char)
  | [], acc => [acc.reverse]
  | ch :: rest, acc =>
    if ch = c then acc.reverse :: splitCharGo c rest []
    else splitCharGo c rest (ch :: acc)

/-- Model of Python `str.split(sep)` for a single-character separator
(the manager only splits on `":"` and `","`): every occurrence of the
separator splits, and `"".split(sep) == [""]`. -/
def splitChar (c : Char) (s : String) : List String :=
  (splitCharGo c s.data []).map (fun l => String.mk l)

/-- Model of Python `str.strip()`: drop leading and trailing
whitespace. -/
def pyStrip (s : String) : String :=
  String.mk
    (((s.data.dropWhile Char.isWhitespace).reverse.dropWhile
        Char.isWhitespace).reverse)

/-- Helper of `pyToInt`: accumulate a run of decimal digits, `none` on
any non-digit. -/
def digitsNatGo : Nat → List Char → Option Nat
  | acc, [] => some acc
  | acc, c :: rest =>
    if c.isDigit then digitsNatGo (10 * acc + (c.toNat - 48)) rest else none

/-- A non-empty all-digit character list as a natural number. -/
def digitsNat : List Char → Option Nat
  | [] => none
  | l => digitsNatGo 0 l

/-- Model of Python `int(s)` on the strings the control protocol
carries: optional surrounding whitespace, an optional sign, then decimal
digits; anything else raises `ValueError`, modelled as `none`. -/
def pyToInt (s : String) : Option Int :=
  match (pyStrip s).data with
  | '-' :: rest => (digitsNat rest).map (fun n => -(n : Int))
  | '+' :: rest => (digitsNat rest).map (fun n => (n : Int))
  | l => (digitsNat l).map (fun n => (n : Int))

/-- Python `message.split(":", 2)`: split on `":"` into at most three
parts, the last keeping any further separators. -/
def pySplit2 (s : String) : List String :=
  let parts := splitChar ':' s
  if parts.length ≤ 3 then parts
  else parts.take 2 ++ [String.intercalate ":" (parts.drop 2)]

/-- The steps the body of the `monitor` loop performs, in order, used to
state which work an iteration did. -/
inductive Action where
  /-- `recv()` returned this message -/
  | recv (msg : String)
  /-- `shutdown()` ran (terminate-all message) -/
  | did_shutdown
  /-- `scale(n)` ran -/
  | did_scale (n : Int)
  /-- `restart(process_names, ...)` ran -/
  | did_restart (process_names : Option (List String))
  /-- `_sync_states()` ran -/
  | did_sync
deriving DecidableEq

/-- One iteration of the steady-state `while True:` loop of
`WorkerManager.monitor` (the `try` body; the `InterruptedError` platform
special case is an OS concern outside the model). Returns the new
manager, the trace of steps taken, and whether the loop continues:
* poll timeout → `_sync_states()` and continue;
* falsy message → `break`;
* `"__TERMINATE__"` → `shutdown()` and `break`;
* `"__SCALE__..."` → `scale(int(last part))` and `continue` (a failed
  `int()` or a `ValueError` from `scale` propagates out of the loop);
* anything else → parsed restart command, then `_sync_states()`.
Scale's `random.choice` indices come from `picks`. -/
def monitorIteration (m : WorkerManager) (worker_state : StateTable)
    (poll : Poll) (picks : List Nat) :
    Except String (WorkerManager × List Action × Bool) :=
  match poll with
  | none => Except.ok (m.sync_states worker_state, [Action.did_sync], true)
  | some message =>
    if message = "" then Except.ok (m, [Action.recv message], false)
    else if message = "__TERMINATE__" then
      Except.ok (m.shutdown, [Action.recv message, Action.did_shutdown], false)
    else
      let split_message := pySplit2 message
      if strStartsWith message "__SCALE__" then
        match pyToInt (split_message.getLastD "") with
        | none => Except.error "ValueError: invalid literal for int()"
        | some n =>
          (m.scale n picks).map
            (fun m' => (m', [Action.recv message, Action.did_scale n], true))
      else
        let processes := split_message.headD ""
        let names := (splitChar ',' processes).map (fun s => pyStrip s)
        let process_names :=
          if names.contains "__ALL_PROCESSES__" then none else some names
        let order :=
          if split_message.contains "STARTUP_FIRST" then
            RestartOrder.STARTUP_FIRST
          else RestartOrder.SHUTDOWN_FIRST
        let m' := (m.restart process_names order).1
        Except.ok
          (m'.sync_states worker_state,
            [Action.recv message, Action.did_restart process_names,
              Action.did_sync],
            true)

/-- The number of workers in a table whose ident starts with the server
label. -/
def countServers (d : List (String × Worker)) : Nat :=
  ((d.map Prod.snd).filter
      (fun w => strStartsWith w.ident SERVER_LABEL)).length

/-- The number of transient workers whose ident starts with the server
label (the quantity the manager's documented invariant compares with
`num_server`). -/
def serverTransientCount (m : WorkerManager) : Nat :=
  countServers m.transient

/-- Structural facts true of every manager whose transient table was
populated through the internal server counter (as construction and
scaling do): keys are unique, each worker is stored under its own ident,
and every server-labelled ident was generated by the counter. -/
def WellFormed (m : WorkerManager) : Prop :=
  (m.transient.map Prod.fst).Nodup ∧
  (∀ p ∈ m.transient, p.1 = p.2.ident) ∧
  (∀ p ∈ m.transient, strStartsWith p.2.ident SERVER_LABEL = true →
    ∃ i, i < m.server_count ∧ p.2.ident = serverIdent i)

/-- The documented invariant: the number of server-labelled transient
workers equals the target server count. -/
def serverInvariant (m : WorkerManager) : Prop :=
  (serverTransientCount m : Int) = m.num_server

/-- A concrete running manager with two server workers and one durable
worker, used as a concrete input by witnesses and refutations. -/
def sampleManager : WorkerManager :=
  { num_server := 2,
    transient := [("Sanic-Server-0", Worker.make "Sanic-Server-0" 1),
                  ("Sanic-Server-1", Worker.make "Sanic-Server-1" 1)],
    durable := [("jobber", Worker.make "jobber" 1)],
    server_count := 2, shutting_down := false }

/-- A concrete one-server manager already in the shutting-down state
(the state after `shutdown()` has run once), used as the input of the
claim-C1 refutation. -/
def oneServerShuttingDown : WorkerManager :=
  { num_server := 1,
    transient := [("Sanic-Server-0", Worker.make "Sanic-Server-0" 1)],
    durable := [], server_count := 1, shutting_down := true }

/-- Recognizer for the `recv` step of a monitor-loop trace. -/
def isRecv : Action → Bool
  | .recv _ => true
  | _ => false

/-! ## Theorems -/

/-! ### Injectivity of the decimal representation used in server idents -/

/-- The core function `Nat.toDigitsCore` with enough fuel produces the decimal digits
(most significant first) in front of the accumulator. -/
theorem toDigitsCore_eq_digits :
    ∀ (fuel n : Nat) (ds : List Char), n < fuel →
      Nat.toDigitsCore 10 fuel n ds
        = (if n = 0 then ['0']
           else ((Nat.digits 10 n).map Nat.digitChar).reverse) ++ ds := by
  intro fuel
  induction fuel with
  | zero => omega
  | succ fuel ih =>
    intro n ds hlt
    by_cases h0 : n = 0
    · subst h0
      simp [Nat.toDigitsCore, Nat.digitChar]
    · by_cases hdiv : n / 10 = 0
      · have hsmall : n < 10 := by omega
        have : Nat.digits 10 n = [n % 10] := by
          rw [Nat.digits_def' (by norm_num : (1 : Nat) < 10) (by omega), hdiv]
          simp
        simp [Nat.toDigitsCore, hdiv, this, h0]
      · have hd10 : n / 10 < n := Nat.div_lt_self (by omega) (by norm_num)
        have hfuel : n / 10 < fuel := by omega
        have hrec := ih (n / 10) (Nat.digitChar (n % 10) :: ds) hfuel
        have hdig : Nat.digits 10 n = n % 10 :: Nat.digits 10 (n / 10) :=
          Nat.digits_def' (by norm_num : (1 : Nat) < 10) (by omega)
        simp only [Nat.toDigitsCore, hdiv, if_false]
        rw [hrec, if_neg hdiv, if_neg h0, hdig]
        simp only [List.map_cons, List.reverse_cons, List.append_assoc,
          List.singleton_append, List.cons_append, List.nil_append]

/-- Unfolds `Nat.repr` as decimal digits. -/
theorem natRepr_eq (n : Nat) :
    Nat.repr n
      = (if n = 0 then ['0']
         else ((Nat.digits 10 n).map Nat.digitChar).reverse).asString := by
  rw [Nat.repr, Nat.toDigits,
    toDigitsCore_eq_digits (n + 1) n [] (Nat.lt_succ_self n), List.append_nil]

/-- The function `Nat.digitChar` distinguishes decimal digits. -/
theorem digitChar_inj_lt : ∀ a < 10, ∀ b < 10,
    Nat.digitChar a = Nat.digitChar b → a = b := by decide

/-- Mapping `digitChar` over decimal digit lists is injective. -/
theorem map_digitChar_inj :
    ∀ l1 l2 : List Nat, (∀ d ∈ l1, d < 10) → (∀ d ∈ l2, d < 10) →
      l1.map Nat.digitChar = l2.map Nat.digitChar → l1 = l2 := by
  intro l1
  induction l1 with
  | nil =>
    intro l2 _ _ h
    cases l2 with
    | nil => rfl
    | cons b bs => simp at h
  | cons a as ih =>
    intro l2 h1 h2 h
    cases l2 with
    | nil => simp at h
    | cons b bs =>
      simp only [List.map_cons, List.cons.injEq] at h
      have ha : a < 10 := h1 a (by simp)
      have hb : b < 10 := h2 b (by simp)
      have : a = b := digitChar_inj_lt a ha b hb h.1
      subst this
      rw [ih bs (fun d hd => h1 d (by simp [hd])) (fun d hd => h2 d (by simp [hd])) h.2]

/-- Distinct naturals have distinct decimal string representations. -/
theorem natRepr_injective : Function.Injective Nat.repr := by
  intro m n h
  rw [natRepr_eq, natRepr_eq] at h
  have hd : (if m = 0 then ['0']
        else ((Nat.digits 10 m).map Nat.digitChar).reverse)
      = (if n = 0 then ['0']
        else ((Nat.digits 10 n).map Nat.digitChar).reverse) :=
    congrArg String.data h
  have single : ∀ k : Nat, k ≠ 0 →
      ((Nat.digits 10 k).map Nat.digitChar).reverse ≠ ['0'] := by
    intro k hk hc
    have hmap : (Nat.digits 10 k).map Nat.digitChar = ['0'] := by
      have := congrArg List.reverse hc
      simpa using this
    have hdig : Nat.digits 10 k = [0] := by
      cases hdk : Nat.digits 10 k with
      | nil => rw [hdk] at hmap; simp at hmap
      | cons d ds =>
        rw [hdk] at hmap
        simp only [List.map_cons, List.cons.injEq] at hmap
        have hds : ds = [] := by
          have := hmap.2
          cases ds with
          | nil => rfl
          | cons e es => simp at this
        subst hds
        have hdlt : d < 10 :=
          Nat.digits_lt_base (by norm_num) (by rw [hdk]; simp)
        have : d = 0 := digitChar_inj_lt d hdlt 0 (by norm_num)
          (by simpa using hmap.1)
        simp [this]
    have := Nat.ofDigits_digits 10 k
    rw [hdig] at this
    simp [Nat.ofDigits] at this
    exact hk this.symm
  by_cases hm : m = 0 <;> by_cases hn : n = 0
  · omega
  · rw [if_pos hm, if_neg hn] at hd
    exact absurd hd.symm (single n hn)
  · rw [if_neg hm, if_pos hn] at hd
    exact absurd hd (single m hm)
  · rw [if_neg hm, if_neg hn] at hd
    have hmap : (Nat.digits 10 m).map Nat.digitChar
        = (Nat.digits 10 n).map Nat.digitChar := by
      have := congrArg List.reverse hd
      simpa using this
    have hdig := map_digitChar_inj (Nat.digits 10 m) (Nat.digits 10 n)
      (fun d hd => Nat.digits_lt_base (by norm_num) hd)
      (fun d hd => Nat.digits_lt_base (by norm_num) hd) hmap
    exact Nat.digits_inj_iff.mp hdig


/-- A character list is a boolean prefix of itself followed by
anything. -/
theorem isPrefixOf_append_self : ∀ l r : List Char,
    List.isPrefixOf l (l ++ r) = true := by
  intro l r
  induction l with
  | nil => simp [List.isPrefixOf]
  | cons a as ih => simp [List.isPrefixOf, ih]

/-- Generated server idents carry the server label. -/
theorem serverIdent_startsWith (n : Nat) :
    strStartsWith (serverIdent n) SERVER_LABEL = true := by
  rw [strStartsWith, serverIdent, String.data_append]
  exact isPrefixOf_append_self _ _

/-- Distinct server numbers generate distinct idents. -/
theorem serverIdent_injective : Function.Injective serverIdent := by
  intro i j h
  have hd := congrArg String.data h
  simp only [serverIdent, String.data_append] at hd
  have h1 := List.append_cancel_left hd
  exact natRepr_injective (String.ext h1)

/-- Assigning a fresh key to a dict appends the pair. -/
theorem dictSet_fresh (d : List (String × Worker)) (k : String) (v : Worker)
    (h : ∀ p ∈ d, p.1 ≠ k) : dictSet d k v = d ++ [(k, v)] := by
  have hany : d.any (fun p => p.1 == k) = false := by
    rw [List.any_eq_false]
    intro p hp
    simpa using h p hp
  rw [dictSet, hany]
  simp

/-- The ident a `Worker` is constructed with. -/
theorem worker_make_ident (i : String) (w : Nat) : (Worker.make i w).ident = i := by
  rw [Worker.make]
  split <;> rfl

/-- The count `countServers` distributes over append. -/
theorem countServers_append (d e : List (String × Worker)) :
    countServers (d ++ e) = countServers d + countServers e := by
  simp [countServers, List.filter_append]

/-- An entrywise update that preserves idents preserves the server
count. -/
theorem countServers_map_ident (f : String × Worker → Worker)
    (hf : ∀ p, (f p).ident = p.2.ident) :
    ∀ d, countServers (d.map (fun p => (p.1, f p))) = countServers d := by
  intro d
  induction d with
  | nil => rfl
  | cons p rest ih =>
    by_cases hpred : strStartsWith p.2.ident SERVER_LABEL = true <;>
      simp [countServers, List.map_cons, List.map_map, Function.comp,
        List.filter_cons, hf p, hpred] at ih ⊢ <;>
      omega

/-- An entrywise update that preserves idents preserves well-formedness
(for any durable table and target count). -/
theorem wellFormed_map_ident (m : WorkerManager) (f : String × Worker → Worker)
    (hf : ∀ p, (f p).ident = p.2.ident) (hWF : WellFormed m)
    (du : List (String × Worker)) (ns : Int) (sd : Bool) :
    WellFormed { m with transient := m.transient.map (fun p => (p.1, f p)),
                        durable := du, num_server := ns,
                        shutting_down := sd } := by
  obtain ⟨hnd, hki, hsrv⟩ := hWF
  refine ⟨?_, ?_, ?_⟩
  · have : (m.transient.map (fun p => (p.1, f p))).map Prod.fst
        = m.transient.map Prod.fst := by
      rw [List.map_map]
      exact List.map_congr_left (fun p _ => rfl)
    rw [this]
    exact hnd
  · rintro p hp
    obtain ⟨q, hq, rfl⟩ := List.mem_map.mp hp
    simp only [hf q]
    exact hki q hq
  · rintro p hp hpre
    obtain ⟨q, hq, rfl⟩ := List.mem_map.mp hp
    rw [hf q] at hpre ⊢
    exact hsrv q hq hpre

/-- What `create_server` does to a well-formed manager: it appends one
new server-labelled worker under a fresh counter-generated ident,
advances the counter, and touches nothing else; well-formedness is
preserved and the server count grows by one. -/
theorem create_server_spec (m : WorkerManager) (hWF : WellFormed m) :
    m.create_server.transient
        = m.transient ++ [(serverIdent m.server_count,
            Worker.make (serverIdent m.server_count) 1)] ∧
    m.create_server.durable = m.durable ∧
    m.create_server.num_server = m.num_server ∧
    m.create_server.server_count = m.server_count + 1 ∧
    m.create_server.shutting_down = m.shutting_down ∧
    WellFormed m.create_server ∧
    serverTransientCount m.create_server = serverTransientCount m + 1 ∧
    m.create_server.transient.length = m.transient.length + 1 := by
  obtain ⟨hnd, hki, hsrv⟩ := hWF
  have hfresh : ∀ p ∈ m.transient, p.1 ≠ serverIdent m.server_count := by
    intro p hp
    by_cases hpre : strStartsWith p.2.ident SERVER_LABEL = true
    · obtain ⟨i, hi, hid⟩ := hsrv p hp hpre
      rw [hki p hp, hid]
      intro hc
      exact absurd (serverIdent_injective hc) (by omega)
    · rw [hki p hp]
      intro hc
      rw [hc] at hpre
      exact hpre (serverIdent_startsWith m.server_count)
  have htrans : m.create_server.transient
      = m.transient ++ [(serverIdent m.server_count,
          Worker.make (serverIdent m.server_count) 1)] := by
    show dictSet m.transient (Worker.make (serverIdent m.server_count) 1).ident
        (Worker.make (serverIdent m.server_count) 1)
        = m.transient ++ [(serverIdent m.server_count,
            Worker.make (serverIdent m.server_count) 1)]
    rw [worker_make_ident]
    exact dictSet_fresh _ _ _ hfresh
  refine ⟨htrans, rfl, rfl, rfl, rfl, ⟨?_, ?_, ?_⟩, ?_, ?_⟩
  · rw [htrans]
    rw [List.map_append, List.nodup_append]
    refine ⟨hnd, by simp, ?_⟩
    intro a ha
    obtain ⟨p, hp, rfl⟩ := List.mem_map.mp ha
    simpa using hfresh p hp
  · rw [htrans]
    intro p hp
    rcases List.mem_append.mp hp with hp | hp
    · exact hki p hp
    · simp only [List.mem_singleton] at hp
      subst hp
      rw [worker_make_ident]
  · rw [htrans]
    intro p hp hpre
    rcases List.mem_append.mp hp with hp | hp
    · obtain ⟨i, hi, hid⟩ := hsrv p hp hpre
      exact ⟨i, by simp [WorkerManager.create_server, WorkerManager.manage]; omega, hid⟩
    · simp only [List.mem_singleton] at hp
      subst hp
      refine ⟨m.server_count, ?_, by rw [worker_make_ident]⟩
      show m.server_count < m.create_server.server_count
      simp [WorkerManager.create_server, WorkerManager.manage]
  · show countServers m.create_server.transient = countServers m.transient + 1
    rw [htrans, countServers_append]
    have : countServers [(serverIdent m.server_count,
        Worker.make (serverIdent m.server_count) 1)] = 1 := by
      simp [countServers, worker_make_ident, serverIdent_startsWith]
    omega
  · rw [htrans]
    simp

/-- Iterating `create_server` `k` times from a well-formed manager adds
`k` server workers. -/
theorem foldl_create_server (k : Nat) :
    ∀ m : WorkerManager, WellFormed m →
      WellFormed ((List.range k).foldl (fun acc _ => acc.create_server) m) ∧
      serverTransientCount
          ((List.range k).foldl (fun acc _ => acc.create_server) m)
        = serverTransientCount m + k ∧
      ((List.range k).foldl (fun acc _ => acc.create_server) m).durable
        = m.durable ∧
      ((List.range k).foldl (fun acc _ => acc.create_server) m).num_server
        = m.num_server ∧
      ((List.range k).foldl (fun acc _ => acc.create_server) m).server_count
        = m.server_count + k ∧
      ((List.range k).foldl (fun acc _ => acc.create_server) m).transient.length
        = m.transient.length + k ∧
      ((List.range k).foldl (fun acc _ => acc.create_server) m).shutting_down
        = m.shutting_down := by
  induction k with
  | zero =>
    intro m hWF
    simp only [List.range_zero, List.foldl_nil, Nat.add_zero]
    refine ⟨hWF, ?_, ?_, ?_, ?_, ?_, ?_⟩ <;> trivial
  | succ k ih =>
    intro m hWF
    rw [List.range_succ, List.foldl_append]
    obtain ⟨ihWF, ihc, ihd, ihn, ihs, ihl, ihsd⟩ := ih m hWF
    obtain ⟨-, hd, hn, hs, hsd, hWF', hc, hl⟩ := create_server_spec _ ihWF
    refine ⟨hWF', ?_, ?_, ?_, ?_, ?_, ?_⟩ <;>
      simp only [List.foldl_cons, List.foldl_nil]
    · omega
    · rw [hd, ihd]
    · rw [hn, ihn]
    · omega
    · omega
    · rw [hsd, ihsd]

/-- C9: constructing with `number == 0` raises
`RuntimeError("Cannot serve with no workers")` while both worker tables
are still empty (the raise precedes the creation loop), and for every
`number > 0` construction succeeds and creates exactly `number`
server-labelled transient workers (and nothing in the durable table). -/
theorem claim_C9_constructor :
    WorkerManager.init 0 = Except.error "Cannot serve with no workers" ∧
    (WorkerManager.initial 0).transient = [] ∧
    (WorkerManager.initial 0).durable = [] ∧
    (∀ number : Int, 0 < number →
      ∃ m, WorkerManager.init number = Except.ok m ∧
        (serverTransientCount m : Int) = number ∧
        ((m.transient.length : Int) = number ∧ m.durable = [])) := by
  refine ⟨rfl, rfl, rfl, ?_⟩
  intro number hpos
  have hne : (number == 0) = false := by
    rw [beq_eq_false_iff_ne]
    omega
  have hWF0 : WellFormed (WorkerManager.initial number) :=
    ⟨List.nodup_nil, by simp [WorkerManager.initial], by simp [WorkerManager.initial]⟩
  obtain ⟨hWF, hcount, hdur, hnum, hsc, hlen, hsd⟩ :=
    foldl_create_server number.toNat _ hWF0
  refine ⟨(List.range number.toNat).foldl
      (fun m _ => m.create_server) (WorkerManager.initial number), ?_, ?_, ?_, ?_⟩
  · rw [WorkerManager.init, hne]
    simp
  · rw [hcount]
    show ((serverTransientCount (WorkerManager.initial number) + number.toNat : Nat) : Int)
        = number
    have h0 : serverTransientCount (WorkerManager.initial number) = 0 := rfl
    rw [h0]
    omega
  · rw [hlen]
    show (((WorkerManager.initial number).transient.length + number.toNat : Nat) : Int)
        = number
    have h0 : (WorkerManager.initial number).transient.length = 0 := rfl
    rw [h0]
    omega
  · rw [hdur]
    rfl

/-- Witness for C9 at `number = 3`. -/
theorem claim_C9_witness :
    WorkerManager.init 0 = Except.error "Cannot serve with no workers" ∧
    ∃ m, WorkerManager.init 3 = Except.ok m ∧
      (serverTransientCount m : Int) = 3 ∧
      ((m.transient.length : Int) = 3 ∧ m.durable = []) :=
  ⟨claim_C9_constructor.1, claim_C9_constructor.2.2.2 3 (by decide)⟩

/-- A `getD` with an in-range index returns an element of the list. -/
theorem getD_mem_of_lt (l : List Worker) (i : Nat) (d : Worker)
    (h : i < l.length) : l.getD i d ∈ l := by
  rw [List.getD_eq_getElem?_getD, List.getElem?_eq_getElem h]
  exact List.getElem_mem h

/-- A server-labelled member forces a positive server count. -/
theorem countServers_pos_of_mem (d : List (String × Worker)) (k : String)
    (w : Worker) (hmem : (k, w) ∈ d)
    (hpred : strStartsWith w.ident SERVER_LABEL = true) :
    1 ≤ countServers d := by
  have hw : w ∈ (d.map Prod.snd).filter
      (fun w => strStartsWith w.ident SERVER_LABEL) :=
    List.mem_filter.mpr ⟨List.mem_map.mpr ⟨(k, w), hmem, rfl⟩, hpred⟩
  have := List.length_pos.mpr (List.ne_nil_of_mem hw)
  simpa [countServers] using this

/-- Deleting the (unique) entry of a server-labelled worker decrements
the server count by one. -/
theorem countServers_dictDelete (k : String) (w : Worker)
    (hpred : strStartsWith w.ident SERVER_LABEL = true) :
    ∀ d : List (String × Worker), (d.map Prod.fst).Nodup → (k, w) ∈ d →
      countServers (dictDelete d k) = countServers d - 1 := by
  intro d
  induction d with
  | nil =>
    intro _ h
    simp at h
  | cons q rest ih =>
    intro hnd hmem
    have hndq : q.1 ∉ rest.map Prod.fst ∧ (rest.map Prod.fst).Nodup := by
      simpa [List.nodup_cons] using hnd
    rcases List.mem_cons.mp hmem with heq | hmem'
    · have hq1 : q.1 = k := by rw [← heq]
      have hrest : dictDelete rest k = rest := by
        rw [dictDelete, List.filter_eq_self]
        intro p hp
        simp only [bne_iff_ne, ne_eq]
        intro hc
        exact hndq.1 (by rw [hq1, ← hc]; exact List.mem_map_of_mem Prod.fst hp)
      have hqw : q.2 = w := by rw [← heq]
      rw [dictDelete, List.filter_cons]
      have : (q.1 != k) = false := by simp [hq1]
      rw [this]
      show countServers (dictDelete rest k) = countServers (q :: rest) - 1
      rw [hrest]
      have : countServers (q :: rest) = countServers rest + 1 := by
        simp [countServers, List.filter_cons, hqw, hpred]
      omega
    · have hkrest : k ∈ rest.map Prod.fst :=
        List.mem_map_of_mem Prod.fst hmem'
      have hq1 : q.1 ≠ k := fun hc => hndq.1 (hc ▸ hkrest)
      have hstep : dictDelete (q :: rest) k = q :: dictDelete rest k := by
        rw [dictDelete, List.filter_cons]
        have : (q.1 != k) = true := by simpa using hq1
        rw [this]
        rfl
      rw [hstep]
      have hrec := ih hndq.2 hmem'
      have hpos := countServers_pos_of_mem rest k w hmem' hpred
      by_cases hq : strStartsWith q.2.ident SERVER_LABEL = true
      · have h1 : countServers (q :: dictDelete rest k)
            = countServers (dictDelete rest k) + 1 := by
          simp [countServers, List.filter_cons, hq]
        have h2 : countServers (q :: rest) = countServers rest + 1 := by
          simp [countServers, List.filter_cons, hq]
        omega
      · have h1 : countServers (q :: dictDelete rest k)
            = countServers (dictDelete rest k) := by
          simp [countServers, List.filter_cons, hq]
        have h2 : countServers (q :: rest) = countServers rest := by
          simp [countServers, List.filter_cons, hq]
        omega

/-- Deleting a key preserves well-formedness. -/
theorem wellFormed_dictDelete (m : WorkerManager) (k : String)
    (hWF : WellFormed m) :
    WellFormed { m with transient := dictDelete m.transient k } := by
  obtain ⟨hnd, hki, hsrv⟩ := hWF
  refine ⟨?_, ?_, ?_⟩
  · exact List.Nodup.sublist
      (List.Sublist.map Prod.fst (List.filter_sublist m.transient)) hnd
  · intro p hp
    exact hki p (List.mem_of_mem_filter hp)
  · intro p hp hpre
    exact hsrv p (List.mem_of_mem_filter hp) hpre

/-- What the `ident is None` branch of `shutdown_server` does to a
well-formed manager with at least one server worker: exactly one
server-labelled transient worker is removed; nothing else changes;
well-formedness is preserved — and, crucially for the documented
invariant, `num_server` is NOT decremented. -/
theorem shutdown_server_none_spec (m : WorkerManager) (pick : Nat)
    (hWF : WellFormed m) (hpos : 1 ≤ serverTransientCount m) :
    WellFormed (m.shutdown_server_none pick) ∧
    serverTransientCount (m.shutdown_server_none pick)
      = serverTransientCount m - 1 ∧
    (m.shutdown_server_none pick).durable = m.durable ∧
    (m.shutdown_server_none pick).num_server = m.num_server ∧
    (m.shutdown_server_none pick).server_count = m.server_count ∧
    (m.shutdown_server_none pick).shutting_down = m.shutting_down := by
  have hlen : 0 < m.serverWorkers.length := hpos
  have hne : m.serverWorkers.isEmpty = false := by
    cases hsw : m.serverWorkers with
    | nil => rw [hsw] at hlen; simp at hlen
    | cons a as => rfl
  obtain ⟨w, hw⟩ : ∃ w, m.serverWorkers.getD (pick % m.serverWorkers.length)
      ⟨"", []⟩ = w := ⟨_, rfl⟩
  have hmemW : w ∈ m.serverWorkers := by
    rw [← hw]
    exact getD_mem_of_lt _ _ _ (Nat.mod_lt _ hlen)
  have hflt := List.mem_filter.mp hmemW
  obtain ⟨p, hp, hpw⟩ := List.mem_map.mp hflt.1
  have hpred : strStartsWith w.ident SERVER_LABEL = true := hflt.2
  have hmemT : (w.ident, w) ∈ m.transient := by
    have hpk : p = (w.ident, w) := by
      have h1 : p.1 = w.ident := by rw [hWF.2.1 p hp, hpw]
      have h2 : p.2 = w := hpw
      rw [← h1, ← h2]
    rw [← hpk]
    exact hp
  have hunfold : m.shutdown_server_none pick
      = { m with transient := dictDelete m.transient w.ident } := by
    simp only [WorkerManager.shutdown_server_none, hne, hw,
      Bool.false_eq_true, if_false]
  rw [hunfold]
  refine ⟨wellFormed_dictDelete m _ hWF, ?_, rfl, rfl, rfl, rfl⟩
  exact countServers_dictDelete _ _ hpred m.transient hWF.1 hmemT

/-- The helper `create_server_started` (the body of `scale`'s increase loop) adds
one server worker like `create_server` and then only starts the new
worker's processes, which changes no ident and no count. -/
theorem create_server_started_spec (m : WorkerManager) (hWF : WellFormed m) :
    WellFormed m.create_server_started ∧
    serverTransientCount m.create_server_started = serverTransientCount m + 1 ∧
    m.create_server_started.durable = m.durable ∧
    m.create_server_started.num_server = m.num_server ∧
    m.create_server_started.server_count = m.server_count + 1 := by
  obtain ⟨htrans, hd, hn, hs, hsd, hWF', hc, hl⟩ := create_server_spec m hWF
  have hform : m.create_server_started
      = { m.create_server with
            transient :=
              m.create_server.transient.map
                (fun p =>
                  (p.1,
                    if p.1 == serverIdent m.server_count then
                      Worker.mk p.2.ident (p.2.processes.map (fun q => q.start 0))
                    else p.2)) } := by
    unfold WorkerManager.create_server_started
    dsimp only
    congr 1
    refine List.map_congr_left ?_
    intro p _
    by_cases hp : (p.1 == serverIdent m.server_count) = true <;> simp [hp]
  have hident : ∀ p : String × Worker,
      ((if p.1 == serverIdent m.server_count then
          Worker.mk p.2.ident (p.2.processes.map (fun q => q.start 0))
        else p.2) : Worker).ident = p.2.ident := by
    intro p
    by_cases hp : (p.1 == serverIdent m.server_count) = true <;> simp [hp]
  refine ⟨?_, ?_, ?_, ?_, ?_⟩
  · rw [hform]
    exact wellFormed_map_ident m.create_server _ hident hWF'
      m.create_server.durable m.create_server.num_server
      m.create_server.shutting_down
  · rw [hform]
    show countServers (m.create_server.transient.map _)
        = serverTransientCount m + 1
    rw [countServers_map_ident _ hident m.create_server.transient]
    exact hc
  · rw [hform]
    exact hd
  · rw [hform]
    exact hn
  · rw [hform]
    exact hs

/-- Iterating the increase-loop body `k` times from a well-formed
manager adds `k` server workers and leaves `num_server` alone. -/
theorem foldl_create_server_started (k : Nat) :
    ∀ m : WorkerManager, WellFormed m →
      WellFormed
        ((List.range k).foldl (fun acc _ => acc.create_server_started) m) ∧
      serverTransientCount
          ((List.range k).foldl (fun acc _ => acc.create_server_started) m)
        = serverTransientCount m + k ∧
      ((List.range k).foldl
          (fun acc _ => acc.create_server_started) m).num_server
        = m.num_server := by
  induction k with
  | zero =>
    intro m hWF
    simp only [List.range_zero, List.foldl_nil, Nat.add_zero]
    refine ⟨hWF, ?_, ?_⟩ <;> trivial
  | succ k ih =>
    intro m hWF
    rw [List.range_succ, List.foldl_append]
    obtain ⟨ihWF, ihc, ihn⟩ := ih m hWF
    obtain ⟨hWF', hc, -, hn, -⟩ := create_server_started_spec _ ihWF
    refine ⟨?_, ?_, ?_⟩ <;> simp only [List.foldl_cons, List.foldl_nil]
    · exact hWF'
    · omega
    · rw [hn, ihn]

/-- Iterating the decrease-loop body (random-victim `shutdown_server`)
`k` times removes `k` server workers and leaves `num_server` alone, as
long as enough server workers exist. -/
theorem foldl_shutdown_server_none (g : Nat → Nat) (k : Nat) :
    ∀ m : WorkerManager, WellFormed m → k ≤ serverTransientCount m →
      WellFormed
        ((List.range k).foldl (fun acc i => acc.shutdown_server_none (g i)) m) ∧
      serverTransientCount
          ((List.range k).foldl
            (fun acc i => acc.shutdown_server_none (g i)) m)
        = serverTransientCount m - k ∧
      ((List.range k).foldl
          (fun acc i => acc.shutdown_server_none (g i)) m).num_server
        = m.num_server := by
  induction k with
  | zero =>
    intro m hWF _
    simp only [List.range_zero, List.foldl_nil, Nat.sub_zero]
    refine ⟨hWF, ?_, ?_⟩ <;> trivial
  | succ k ih =>
    intro m hWF hk
    rw [List.range_succ, List.foldl_append]
    obtain ⟨ihWF, ihc, ihn⟩ := ih m hWF (by omega)
    have hpos : 1 ≤ serverTransientCount
        ((List.range k).foldl (fun acc i => acc.shutdown_server_none (g i)) m) := by
      omega
    obtain ⟨hWF', hc, -, hn, -, -⟩ := shutdown_server_none_spec _ (g k) ihWF hpos
    refine ⟨?_, ?_, ?_⟩ <;> simp only [List.foldl_cons, List.foldl_nil]
    · exact hWF'
    · omega
    · rw [hn, ihn]

/-- A completed `scale` preserves well-formedness and the
count-equals-target invariant. -/
theorem scale_preserves (m : WorkerManager) (n : Int) (picks : List Nat)
    (m' : WorkerManager) (hWF : WellFormed m) (hinv : serverInvariant m)
    (hok : m.scale n picks = Except.ok m') :
    WellFormed m' ∧ serverInvariant m' := by
  simp only [WorkerManager.scale] at hok
  by_cases hn : n ≤ 0
  · rw [if_pos hn] at hok
    exact absurd hok (by simp)
  · rw [if_neg hn] at hok
    by_cases hc : n - m.num_server = 0
    · rw [if_pos hc] at hok
      obtain rfl : m = m' := Except.ok.inj hok
      have : m.num_server = n := by omega
      exact ⟨hWF, hinv⟩
    · rw [if_neg hc] at hok
      by_cases hpos : 0 < n - m.num_server
      · rw [if_pos hpos] at hok
        obtain ⟨hWFf, hcf, hnf⟩ :=
          foldl_create_server_started (n - m.num_server).toNat m hWF
        have heq := Except.ok.inj hok
        constructor
        · rw [← heq]
          exact hWFf
        · rw [← heq]
          simp only [serverInvariant, serverTransientCount] at hcf hinv ⊢
          omega
      · rw [if_neg hpos] at hok
        have hk : (n - m.num_server).natAbs ≤ serverTransientCount m := by
          have := hinv
          simp only [serverInvariant] at this
          omega
        obtain ⟨hWFf, hcf, hnf⟩ :=
          foldl_shutdown_server_none (fun i => picks.getD i 0)
            (n - m.num_server).natAbs m hWF hk
        have heq := Except.ok.inj hok
        constructor
        · rw [← heq]
          exact hWFf
        · rw [← heq]
          have hcf' : serverTransientCount
              ((List.range (n - m.num_server).natAbs).foldl
                (fun acc i => acc.shutdown_server_none (picks.getD i 0)) m)
              = serverTransientCount m - (n - m.num_server).natAbs := hcf
          simp only [serverInvariant, serverTransientCount] at hcf' hinv ⊢
          omega

/-- A `restart` never changes the worker tables' keys, idents, or the
target count, so it preserves the invariant (and well-formedness). -/
theorem restart_preserves (m : WorkerManager)
    (names : Option (List String)) (order : RestartOrder)
    (hinv : serverInvariant m) :
    serverInvariant (m.restart names order).1 := by
  have hcount : serverTransientCount (m.restart names order).1
      = serverTransientCount m := by
    show countServers
        (m.transient.map
          (fun p =>
            (p.1,
              Worker.mk p.2.ident
                (p.2.processes.map
                  (fun q =>
                    if shouldRestart names q.name then q.restart order
                    else q)))))
      = countServers m.transient
    exact countServers_map_ident
      (fun p =>
        Worker.mk p.2.ident
          (p.2.processes.map
            (fun q =>
              if shouldRestart names q.name then q.restart order else q)))
      (fun p => rfl) m.transient
  show (serverTransientCount (m.restart names order).1 : Int)
      = (m.restart names order).1.num_server
  rw [hcount]
  exact hinv

/-- A `shutdown` terminates processes but keeps every worker and the
target count, so it preserves the invariant. -/
theorem shutdown_preserves (m : WorkerManager) (hinv : serverInvariant m) :
    serverInvariant m.shutdown := by
  have hcount : serverTransientCount m.shutdown = serverTransientCount m := by
    show countServers
        (m.transient.map
          (fun p =>
            (p.1,
              Worker.mk p.2.ident
                (p.2.processes.map
                  (fun q => if q.is_alive then q.terminate else q)))))
      = countServers m.transient
    exact countServers_map_ident
      (fun p =>
        Worker.mk p.2.ident
          (p.2.processes.map (fun q => if q.is_alive then q.terminate else q)))
      (fun p => rfl) m.transient
  show (serverTransientCount m.shutdown : Int) = m.shutdown.num_server
  rw [hcount]
  exact hinv

/-- A `_sync_states` pass only rewrites process states, so it preserves the
invariant. -/
theorem sync_states_preserves (m : WorkerManager) (ws : StateTable)
    (hinv : serverInvariant m) : serverInvariant (m.sync_states ws) := by
  have hcount : serverTransientCount (m.sync_states ws)
      = serverTransientCount m := by
    show countServers
        (m.transient.map
          (fun p =>
            (p.1, Worker.mk p.2.ident (p.2.processes.map (syncProcess ws)))))
      = countServers m.transient
    exact countServers_map_ident
      (fun p =>
        Worker.mk p.2.ident (p.2.processes.map (syncProcess ws)))
      (fun p => rfl) m.transient
  show (serverTransientCount (m.sync_states ws) : Int)
      = (m.sync_states ws).num_server
  rw [hcount]
  exact hinv

/-- C4 as stated is false: `shutdown_server` is a public operation and is
not an in-flight scale, yet it removes a server worker WITHOUT
decrementing `num_server`. Concretely, a freshly constructed one-server
manager satisfies the invariant (1 server worker, `num_server = 1`), and
after one `shutdown_server()` call it has 0 server workers while
`num_server` is still 1. -/
theorem claim_C4_counterexample :
    (WorkerManager.init 1).map
        (fun m => ((serverTransientCount m : Int), m.num_server))
      = Except.ok ((1 : Int), (1 : Int)) ∧
    (WorkerManager.init 1).map
        (fun m =>
          (m.shutdown_server none 0).map
            (fun m2 => ((serverTransientCount m2 : Int), m2.num_server)))
      = Except.ok (Except.ok ((0 : Int), (1 : Int))) ∧
    (0 : Int) ≠ 1 := by
  refine ⟨by rfl, by rfl, by decide⟩

/-- C4 amended: the count-equals-`num_server` invariant is established
by construction (with a positive worker count) and preserved by every
completed `scale` operation, by `restart`, by `shutdown`, and by state
reconciliation — but NOT by `shutdown_server` (nor by direct
`create_server`/`manage`), which change the set of server workers
without updating `num_server`. -/
theorem claim_C4_amended :
    (∀ number : Int, 0 < number →
      ∀ m, WorkerManager.init number = Except.ok m →
        WellFormed m ∧ serverInvariant m) ∧
    (∀ (m : WorkerManager) (n : Int) (picks : List Nat) m',
      WellFormed m → serverInvariant m → m.scale n picks = Except.ok m' →
        WellFormed m' ∧ serverInvariant m') ∧
    (∀ (m : WorkerManager) names order, serverInvariant m →
      serverInvariant (m.restart names order).1) ∧
    (∀ m : WorkerManager, serverInvariant m →
      serverInvariant m.shutdown) ∧
    (∀ (m : WorkerManager) (ws : StateTable), serverInvariant m →
      serverInvariant (m.sync_states ws)) := by
  refine ⟨?_, scale_preserves, restart_preserves, shutdown_preserves,
    sync_states_preserves⟩
  intro number hpos m hinit
  have hne : (number == 0) = false := by
    rw [beq_eq_false_iff_ne]
    omega
  rw [WorkerManager.init, hne] at hinit
  simp only [Bool.false_eq_true, if_false] at hinit
  have heq := Except.ok.inj hinit
  have hWF0 : WellFormed (WorkerManager.initial number) :=
    ⟨List.nodup_nil, by simp [WorkerManager.initial],
      by simp [WorkerManager.initial]⟩
  obtain ⟨hWF, hcount, -, hnum, -, -, -⟩ :=
    foldl_create_server number.toNat _ hWF0
  constructor
  · rw [← heq]
    exact hWF
  · rw [← heq]
    simp only [serverInvariant, serverTransientCount] at hcount ⊢
    have h0 : countServers (WorkerManager.initial number).transient = 0 := rfl
    have hn : ((List.range number.toNat).foldl
        (fun m _ => m.create_server) (WorkerManager.initial number)).num_server
        = number := hnum
    rw [hn]
    omega

/-- Witness for the amended C4: the one-server manager produced by
`init 1` is well-formed and satisfies the invariant. -/
theorem claim_C4_witness :
    WellFormed
      { num_server := 1,
        transient := [("Sanic-Server-0", Worker.make "Sanic-Server-0" 1)],
        durable := [], server_count := 1, shutting_down := false } ∧
    serverInvariant
      { num_server := 1,
        transient := [("Sanic-Server-0", Worker.make "Sanic-Server-0" 1)],
        durable := [], server_count := 1, shutting_down := false } :=
  claim_C4_amended.1 1 (by decide) _ (by rfl)

/-- C3: during `wait_for_ack`, receiving `"__TERMINATE_EARLY__"` makes
the miss counter exceed the threshold in that same iteration, so the
iteration ends in `kill()` (SIGKILL to every tracked process and the
`ServerKilled` raise) — whereas a plain poll timeout below the threshold
merely increments the counter and keeps polling. -/
theorem claim_C3_terminate_early_kills :
    (∀ misses, ackIteration misses (some "__TERMINATE_EARLY__") = AckStep.killed) ∧
    (∀ misses, misses + 1 ≤ THRESHOLD →
      ackIteration misses none = AckStep.waiting (misses + 1)) ∧
    (∀ m : WorkerManager,
      (m.kill).2 = true ∧ (m.kill).1 = m.processes.map (fun p => p.name)) := by
  refine ⟨fun misses => ?_, fun misses h => ?_, fun m => ⟨rfl, rfl⟩⟩
  · simp [ackIteration]
  · simp only [ackIteration]
    have : ¬ misses + 1 > THRESHOLD := by omega
    simp [this]

/-- Witness for C3 at a concrete miss count. -/
theorem claim_C3_witness :
    ackIteration 0 (some "__TERMINATE_EARLY__") = AckStep.killed ∧
      ackIteration 0 none = AckStep.waiting 1 :=
  ⟨claim_C3_terminate_early_kills.1 0,
    claim_C3_terminate_early_kills.2.1 0 (by decide)⟩

/-- C7: `scale(n)` with `n ≤ 0` raises `ValueError` (the raise precedes
any mutation, so no worker is created or removed and `num_server` is
untouched), and `scale(n)` with `n` equal to the current server count
returns the manager unchanged (the logged no-op branch). -/
theorem claim_C7_scale_guards (m : WorkerManager) (n : Int) (picks : List Nat) :
    (n ≤ 0 → m.scale n picks = Except.error "Cannot scale to 0 workers.") ∧
    (0 < n → n = m.num_server → m.scale n picks = Except.ok m) := by
  constructor
  · intro h
    simp [WorkerManager.scale, h]
  · intro h1 h2
    have hn : ¬ n ≤ 0 := by omega
    have hc : n - m.num_server = 0 := by omega
    simp [WorkerManager.scale, hn, hc]

/-- Witness for C7: a two-server manager, rejecting `scale 0` and
treating `scale 2` as a no-op. -/
theorem claim_C7_witness :
    ({ num_server := 2, transient := [], durable := [], server_count := 2,
       shutting_down := false } : WorkerManager).scale 0 []
        = Except.error "Cannot scale to 0 workers." ∧
    ({ num_server := 2, transient := [], durable := [], server_count := 2,
       shutting_down := false } : WorkerManager).scale 2 []
        = Except.ok { num_server := 2, transient := [], durable := [],
                      server_count := 2, shutting_down := false } :=
  ⟨(claim_C7_scale_guards _ 0 []).1 (by decide),
    (claim_C7_scale_guards _ 2 []).2 (by decide) (by decide)⟩

/-- C10: a negative worker count is not rejected — only `number == 0`
raises — and the constructor then runs its creation loop over the empty
`range(number)`, leaving zero workers in both tables and the negative
value in `num_server`, for which the acknowledgment barrier
`_all_workers_ack` is unsatisfiable (a list length can never equal a
negative target). -/
theorem claim_C10_negative_number (number : Int) (h : number < 0) :
    ∃ m, WorkerManager.init number = Except.ok m ∧
      m.transient = [] ∧ m.durable = [] ∧ m.num_server = number ∧
      ∀ ws : StateTable, all_workers_ack ws m.num_server = false := by
  refine ⟨WorkerManager.initial number, ?_, rfl, rfl, rfl, ?_⟩
  · have h0 : (number == 0) = false := by
      rw [beq_eq_false_iff_ne]
      omega
    have ht : number.toNat = 0 := by omega
    simp [WorkerManager.init, h0, ht]
  · intro ws
    simp only [all_workers_ack, WorkerManager.initial, Bool.and_eq_false_iff]
    right
    rw [beq_eq_false_iff_ne]
    have : (0 : Int) ≤ (((ws.map Prod.snd).filter (fun ws => ws.server)).map
        (fun ws => ws.state == some ProcessState.ACKED)).length := by positivity
    omega

/-- Witness for C10 at `number = -2`. -/
theorem claim_C10_witness :
    ∃ m, WorkerManager.init (-2) = Except.ok m ∧
      m.transient = [] ∧ m.durable = [] ∧ m.num_server = (-2) ∧
      ∀ ws : StateTable, all_workers_ack ws m.num_server = false :=
  claim_C10_negative_number (-2) (by decide)

/-- C5: in one reconciliation step on one tracked process — with no
shared-table entry under the process's name the local state is
force-set to `TERMINATED`, and a second reconciliation of the still-
absent entry changes nothing further (the disappearance is acted on
exactly once); with an entry present whose reported state differs from
the local one, the local state is force-set to the reported state; with
an entry reporting the local state the process is untouched. -/
theorem claim_C5_sync_states (ws : StateTable) (p : WorkerProcess) :
    (ws.find? (fun e => e.1 == p.name) = none →
      syncProcess ws p = { p with state := .TERMINATED } ∧
        syncProcess ws (syncProcess ws p) = syncProcess ws p) ∧
    (∀ ent s, ws.find? (fun e => e.1 == p.name) = some ent →
      ent.2.state = some s → s ≠ p.state →
        syncProcess ws p = { p with state := s }) ∧
    (∀ ent, ws.find? (fun e => e.1 == p.name) = some ent →
      ent.2.state = some p.state → syncProcess ws p = p) := by
  refine ⟨fun h => ⟨?_, ?_⟩, fun ent s h hs hne => ?_, fun ent h hs => ?_⟩
  · simp [syncProcess, h, WorkerProcess.set_state]
  · simp [syncProcess, h, WorkerProcess.set_state]
  · have hne' : p.state ≠ s := fun hc => hne hc.symm
    simp [syncProcess, h, hs, hne', WorkerProcess.set_state]
  · simp [syncProcess, h, hs]

/-- Witness for C5: a vanished entry is terminated exactly once, and a
differing reported state is adopted. -/
theorem claim_C5_witness :
    syncProcess [] ⟨"w", some 7, .STARTED, 0, false⟩
        = ⟨"w", some 7, .TERMINATED, 0, false⟩ ∧
      syncProcess [("w", ⟨true, some .ACKED⟩)] ⟨"w", some 7, .STARTED, 0, false⟩
        = ⟨"w", some 7, .ACKED, 0, false⟩ :=
  ⟨((claim_C5_sync_states [] ⟨"w", some 7, .STARTED, 0, false⟩).1 rfl).1,
    (claim_C5_sync_states [("w", ⟨true, some .ACKED⟩)]
        ⟨"w", some 7, .STARTED, 0, false⟩).2.1
      ⟨"w", ⟨true, some .ACKED⟩⟩ .ACKED (by decide) rfl (by decide)⟩

/-- C1 as stated is false: in `shutdown_signal` on an already
shutting-down manager, `kill()` runs under
`contextlib.suppress(ServerKilled)`, so while every tracked process is
sent `SIGKILL`, the `ServerKilled` condition is swallowed inside the
handler and never reaches the handler's caller. Concretely, on a
one-server shutting-down manager the handler kills the process yet
raises nothing. -/
theorem claim_C1_counterexample :
    oneServerShuttingDown.shutting_down = true ∧
      (oneServerShuttingDown.shutdown_signal).killed = ["Sanic-Server-0"] ∧
      ¬ (oneServerShuttingDown.shutdown_signal).server_killed_raised = true := by
  refine ⟨rfl, by decide, by decide⟩

/-- C1 amended: if `shutdown_signal` fires while the shutting-down flag
is set, the manager sends `SIGKILL` to every tracked process, but the
resulting `ServerKilled` is suppressed inside the handler rather than
surfaced to its caller, and the handler then falls through to the normal
path: it sends the `None` stop sentinel and runs `shutdown()`. -/
theorem claim_C1_amended (m : WorkerManager) (h : m.shutting_down = true) :
    (m.shutdown_signal).killed = m.processes.map (fun p => p.name) ∧
    (m.shutdown_signal).server_killed_raised = false ∧
    (m.shutdown_signal).sent_stop = true ∧
    (m.shutdown_signal).manager = m.shutdown := by
  simp [WorkerManager.shutdown_signal, h, WorkerManager.kill]

/-- C6: `restart` invokes each process's restart on exactly those
transient processes whose name passes the filter — every transient
process when `process_names` is `None` or the empty list, otherwise
those with their name in the list — never on durable workers'
processes; and a non-empty name list matching no transient process is a
silent no-op that restarts nothing and leaves the manager unchanged. -/
theorem claim_C6_restart_filter (m : WorkerManager)
    (names : Option (List String)) (order : RestartOrder) :
    ((m.restart names order).1.durable = m.durable) ∧
    (∀ nm, nm ∈ (m.restart names order).2 ↔
      ∃ p ∈ m.transient_processes, p.name = nm ∧
        shouldRestart names p.name = true) ∧
    ((names = none ∨ names = some []) →
      (m.restart names order).2
        = m.transient_processes.map (fun p => p.name)) ∧
    (∀ l, names = some l → l ≠ [] →
      (∀ p ∈ m.transient_processes, p.name ∉ l) →
      (m.restart names order).1 = m ∧ (m.restart names order).2 = []) := by
  have hfalse : ∀ l, names = some l → l ≠ [] →
      (∀ p ∈ m.transient_processes, p.name ∉ l) →
      ∀ q ∈ m.transient_processes, shouldRestart names q.name = false := by
    rintro l rfl hne hmiss q hq
    simp only [shouldRestart, Bool.or_eq_false_iff]
    constructor
    · simpa using hne
    · simpa using hmiss q hq
  refine ⟨rfl, fun nm => ?_, fun h => ?_, fun l hl hne hmiss => ⟨?_, ?_⟩⟩
  · simp only [WorkerManager.restart, List.mem_map, List.mem_filter]
    constructor
    · rintro ⟨p, ⟨hp, hr⟩, rfl⟩
      exact ⟨p, hp, rfl, hr⟩
    · rintro ⟨p, hp, rfl, hr⟩
      exact ⟨p, ⟨hp, hr⟩, rfl⟩
  · have hall : ∀ q : WorkerProcess, shouldRestart names q.name = true := by
      intro q
      rcases h with h | h <;> simp [h, shouldRestart]
    simp only [WorkerManager.restart]
    rw [List.filter_eq_self.mpr (fun q _ => hall q)]
  · have htrans :
        m.transient.map
          (fun p =>
            (p.1,
              Worker.mk p.2.ident
                (p.2.processes.map
                  (fun q =>
                    if shouldRestart names q.name then q.restart order
                    else q)))) = m.transient := by
      have step : ∀ a ∈ m.transient,
          (a.1,
            Worker.mk a.2.ident
              (a.2.processes.map
                (fun q =>
                  if shouldRestart names q.name then q.restart order
                  else q))) = a := by
        intro a ha
        have hproc : a.2.processes.map
            (fun q =>
              if shouldRestart names q.name then q.restart order else q)
              = a.2.processes := by
          have : ∀ q ∈ a.2.processes,
              (if shouldRestart names q.name then q.restart order else q)
                = q := by
            intro q hq
            have hmem : q ∈ m.transient_processes :=
              List.mem_flatMap.mpr ⟨a.2, List.mem_map.mpr ⟨a, ha, rfl⟩, hq⟩
            rw [hfalse l hl hne hmiss q hmem]
            simp
          rw [List.map_congr_left this, List.map_id']
        rw [hproc]
      rw [List.map_congr_left step, List.map_id']
    exact congrArg (fun t => { m with transient := t }) htrans
  · simp only [WorkerManager.restart]
    rw [List.filter_eq_nil_iff.mpr, List.map_nil]
    intro q hq
    simp [hfalse l hl hne hmiss q hq]

/-- Witness for C6: a name list matching no transient process is a
silent no-op on the sample manager. -/
theorem claim_C6_witness :
    (sampleManager.restart (some ["nope"]) RestartOrder.SHUTDOWN_FIRST).1
        = sampleManager ∧
      (sampleManager.restart (some ["nope"]) RestartOrder.SHUTDOWN_FIRST).2
        = [] :=
  (claim_C6_restart_filter sampleManager (some ["nope"])
      RestartOrder.SHUTDOWN_FIRST).2.2.2
    ["nope"] rfl (by decide) (by decide)

/-- C2: `_all_workers_ack` returns true if and only if every entry of
the shared worker-state table carrying a truthy `server` marker reports
state `ACKED` and the number of such server-tagged entries equals
`num_server`; in particular it never unblocks on a proper subset of
acked server entries or on a server-entry count different from the
target. -/
theorem claim_C2_ack_barrier_iff (ws : StateTable) (n : Int) :
    all_workers_ack ws n = true ↔
      ((∀ e ∈ ws.map Prod.snd, e.server = true →
          e.state = some ProcessState.ACKED) ∧
        (((ws.map Prod.snd).filter (fun e => e.server)).length : Int) = n) := by
  simp only [all_workers_ack, Bool.and_eq_true, List.all_eq_true, List.mem_map,
    List.mem_filter, beq_iff_eq, List.length_map]
  constructor
  · rintro ⟨h1, h2⟩
    refine ⟨?_, h2⟩
    rintro e ⟨a, ha, rfl⟩ hs
    exact beq_iff_eq.mp (h1 (a.2.state == some ProcessState.ACKED)
      ⟨a.2, ⟨⟨a, ha, rfl⟩, hs⟩, rfl⟩)
  · rintro ⟨h1, h2⟩
    refine ⟨?_, h2⟩
    rintro x ⟨a, ⟨ha, hs⟩, rfl⟩
    simp [h1 a ha hs]

/-- If `Except.map f e` is a success, `e` was a success and the value is
its image. -/
theorem map_eq_ok {α β : Type} {f : α → β} {e : Except String α} {v : β}
    (h : Except.map f e = Except.ok v) : ∃ a, e = Except.ok a ∧ v = f a := by
  cases e with
  | error s => simp [Except.map] at h
  | ok a =>
    refine ⟨a, rfl, ?_⟩
    simpa [Except.map, eq_comm] using h

/-- Exhaustive case analysis of a successful monitor-loop iteration:
it is a poll timeout, a falsy message, the terminate-all message, a
scale command, or a restart command, each with its trace. -/
theorem monitorIteration_ok_cases (m : WorkerManager) (ws : StateTable)
    (poll : Poll) (picks : List Nat) (m' : WorkerManager)
    (tr : List Action) (c : Bool)
    (h : monitorIteration m ws poll picks = Except.ok (m', tr, c)) :
    (poll = none ∧ m' = m.sync_states ws ∧ tr = [Action.did_sync] ∧ c = true) ∨
    (poll = some "" ∧ m' = m ∧ tr = [Action.recv ""] ∧ c = false) ∨
    (poll = some "__TERMINATE__" ∧ m' = m.shutdown ∧
      tr = [Action.recv "__TERMINATE__", Action.did_shutdown] ∧ c = false) ∨
    (∃ msg n m2, poll = some msg ∧ msg ≠ "" ∧ msg ≠ "__TERMINATE__" ∧
      strStartsWith msg "__SCALE__" = true ∧
      pyToInt ((pySplit2 msg).getLastD "") = some n ∧
      m.scale n picks = Except.ok m2 ∧ m' = m2 ∧
      tr = [Action.recv msg, Action.did_scale n] ∧ c = true) ∨
    (∃ msg pn, poll = some msg ∧ msg ≠ "" ∧ msg ≠ "__TERMINATE__" ∧
      strStartsWith msg "__SCALE__" = false ∧
      tr = [Action.recv msg, Action.did_restart pn, Action.did_sync] ∧
      c = true) := by
  cases poll with
  | none =>
    simp only [monitorIteration, Except.ok.injEq, Prod.mk.injEq] at h
    exact Or.inl ⟨rfl, h.1.symm, h.2.1.symm, h.2.2.symm⟩
  | some msg =>
    by_cases h1 : msg = ""
    · subst h1
      rw [monitorIteration, if_pos rfl] at h
      simp only [Except.ok.injEq, Prod.mk.injEq] at h
      exact Or.inr (Or.inl ⟨rfl, h.1.symm, h.2.1.symm, h.2.2.symm⟩)
    · by_cases h2 : msg = "__TERMINATE__"
      · subst h2
        rw [monitorIteration, if_neg (by decide), if_pos rfl] at h
        simp only [Except.ok.injEq, Prod.mk.injEq] at h
        exact Or.inr (Or.inr (Or.inl ⟨rfl, h.1.symm, h.2.1.symm, h.2.2.symm⟩))
      · by_cases h3 : strStartsWith msg "__SCALE__" = true
        · rw [monitorIteration, if_neg h1, if_neg h2, if_pos h3] at h
          rcases hint : pyToInt ((pySplit2 msg).getLastD "") with _ | n
          · rw [hint] at h
            simp at h
          · rw [hint] at h
            simp only at h
            obtain ⟨m2, hm2, hv⟩ := map_eq_ok h
            simp only [Prod.mk.injEq] at hv
            exact Or.inr (Or.inr (Or.inr (Or.inl
              ⟨msg, n, m2, rfl, h1, h2, h3, hint, hm2, hv.1, hv.2.1, hv.2.2⟩)))
        · rw [monitorIteration, if_neg h1, if_neg h2, if_neg h3] at h
          simp only [Except.ok.injEq, Prod.mk.injEq] at h
          refine Or.inr (Or.inr (Or.inr (Or.inr
            ⟨msg, _, rfl, h1, h2, by simpa using h3, h.2.1.symm, h.2.2.symm⟩)))

/-- C8 as stated is false: a handled `"__TERMINATE__"` message (which is
not a scale command) exits the loop without running `_sync_states` in
that iteration, contradicting "every other handled message ... is
followed by reconciliation in that same iteration" (the same holds for a
falsy message). -/
theorem claim_C8_counterexample :
    monitorIteration sampleManager [] (some "__TERMINATE__") []
        = Except.ok (sampleManager.shutdown,
            [Action.recv "__TERMINATE__", Action.did_shutdown], false) ∧
      strStartsWith "__TERMINATE__" "__SCALE__" = false ∧
      Action.did_sync ∉ [Action.recv "__TERMINATE__", Action.did_shutdown] := by
  refine ⟨by rfl, by decide, by decide⟩

/-- C8 amended: each monitor iteration receives at most one control
message before any reconciliation; an iteration handling a
`"__SCALE__..."` message never reconciles in that cycle; a pure poll
timeout reconciles; a handled restart command (any non-scale message
that does not stop the loop) is followed by reconciliation in the same
iteration; but the two loop-exiting messages — a falsy message and
`"__TERMINATE__"` — break out without reconciling. -/
theorem claim_C8_amended (m : WorkerManager) (ws : StateTable)
    (poll : Poll) (picks : List Nat) :
    (∀ m' tr c, monitorIteration m ws poll picks = Except.ok (m', tr, c) →
      (tr.filter isRecv).length ≤ 1) ∧
    (∀ msg, poll = some msg → strStartsWith msg "__SCALE__" = true →
      ∀ m' tr c, monitorIteration m ws poll picks = Except.ok (m', tr, c) →
        Action.did_sync ∉ tr) ∧
    (poll = none →
      monitorIteration m ws poll picks
        = Except.ok (m.sync_states ws, [Action.did_sync], true)) ∧
    (∀ msg, poll = some msg → msg ≠ "" → msg ≠ "__TERMINATE__" →
      strStartsWith msg "__SCALE__" = false →
      ∀ m' tr c, monitorIteration m ws poll picks = Except.ok (m', tr, c) →
        Action.did_sync ∈ tr ∧ c = true) ∧
    (∀ msg, poll = some msg → (msg = "" ∨ msg = "__TERMINATE__") →
      ∀ m' tr c, monitorIteration m ws poll picks = Except.ok (m', tr, c) →
        Action.did_sync ∉ tr ∧ c = false) := by
  refine ⟨?_, ?_, ?_, ?_, ?_⟩
  · intro m' tr c h
    rcases monitorIteration_ok_cases m ws poll picks m' tr c h with
      ⟨-, -, rfl, -⟩ | ⟨-, -, rfl, -⟩ | ⟨-, -, rfl, -⟩ |
      ⟨msg, n, m2, -, -, -, -, -, -, -, rfl, -⟩ |
      ⟨msg, pn, -, -, -, -, rfl, -⟩ <;>
      simp [isRecv]
  · rintro msg rfl h3 m' tr c h
    rcases monitorIteration_ok_cases m ws (some msg) picks m' tr c h with
      ⟨hp, -⟩ | ⟨hp, -, rfl, -⟩ | ⟨hp, -, rfl, -⟩ |
      ⟨msg2, n, m2, hp, -, -, -, -, -, -, rfl, -⟩ |
      ⟨msg2, pn, hp, -, -, hsc, -, -⟩
    · exact absurd hp (by simp)
    · obtain rfl : msg = "" := by simpa using hp
      exact absurd h3 (by decide)
    · obtain rfl : msg = "__TERMINATE__" := by simpa using hp
      exact absurd h3 (by decide)
    · simp [isRecv]
    · obtain rfl : msg = msg2 := by simpa using hp
      rw [h3] at hsc
      exact absurd hsc (by decide)
  · rintro rfl
    rfl
  · rintro msg rfl h1 h2 h3 m' tr c h
    rcases monitorIteration_ok_cases m ws (some msg) picks m' tr c h with
      ⟨hp, -⟩ | ⟨hp, -, rfl, -⟩ | ⟨hp, -, rfl, -⟩ |
      ⟨msg2, n, m2, hp, -, -, hsc, -, -, -, rfl, -⟩ |
      ⟨msg2, pn, hp, -, -, -, rfl, hc⟩
    · exact absurd hp (by simp)
    · exact absurd (Option.some.inj hp) h1
    · exact absurd (Option.some.inj hp) h2
    · obtain rfl : msg = msg2 := by simpa using hp
      rw [h3] at hsc
      exact absurd hsc (by decide)
    · exact ⟨by simp, hc⟩
  · rintro msg rfl hstop m' tr c h
    rcases hstop with rfl | rfl
    · rcases monitorIteration_ok_cases m ws (some "") picks m' tr c h with
        ⟨hp, -⟩ | ⟨-, -, rfl, hc⟩ | ⟨hp, -⟩ |
        ⟨msg2, n, m2, hp, hne, -⟩ | ⟨msg2, pn, hp, hne, -⟩
      · exact absurd hp (by simp)
      · exact ⟨by decide, hc⟩
      · exact absurd (Option.some.inj hp) (by decide)
      · exact absurd (Option.some.inj hp).symm hne
      · exact absurd (Option.some.inj hp).symm hne
    · rcases monitorIteration_ok_cases m ws (some "__TERMINATE__") picks m' tr c h with
        ⟨hp, -⟩ | ⟨hp, -⟩ | ⟨-, -, rfl, hc⟩ |
        ⟨msg2, n, m2, hp, -, hne, -⟩ | ⟨msg2, pn, hp, -, hne, -⟩
      · exact absurd hp (by simp)
      · exact absurd (Option.some.inj hp) (by decide)
      · exact ⟨by decide, hc⟩
      · exact absurd (Option.some.inj hp).symm hne
      · exact absurd (Option.some.inj hp).symm hne

/-- Witness for the amended C8: a restart command on the sample manager
reconciles in the same iteration, and a scale command does not. -/
theorem claim_C8_witness :
    (Action.did_sync ∈
        [Action.recv "jobber", Action.did_restart (some ["jobber"]),
          Action.did_sync] ∧ true = true) ∧
      Action.did_sync ∉ [Action.recv "__SCALE__:2", Action.did_scale 2] :=
  ⟨(claim_C8_amended sampleManager [] (some "jobber") []).2.2.2.1
      "jobber" rfl (by decide) (by decide) (by decide)
      ((sampleManager.restart (some ["jobber"])
          RestartOrder.SHUTDOWN_FIRST).1.sync_states [])
      [Action.recv "jobber", Action.did_restart (some ["jobber"]),
        Action.did_sync] true (by rfl),
    (claim_C8_amended sampleManager [] (some "__SCALE__:2") []).2.1
      "__SCALE__:2" rfl (by decide) sampleManager
      [Action.recv "__SCALE__:2", Action.did_scale 2] true (by rfl)⟩


/-- Witness for C2: a single acked server entry satisfies the barrier
for a target of one. -/
theorem claim_C2_witness :
    all_workers_ack [("w1", ⟨true, some ProcessState.ACKED⟩)] 1 = true :=
  (claim_C2_ack_barrier_iff [("w1", ⟨true, some ProcessState.ACKED⟩)] 1).mpr
    ⟨by decide, by decide⟩

/-- Witness for the amended C1 on the concrete one-server manager. -/
theorem claim_C1_witness :
    (oneServerShuttingDown.shutdown_signal).killed
        = oneServerShuttingDown.processes.map (fun p => p.name) ∧
    (oneServerShuttingDown.shutdown_signal).server_killed_raised = false ∧
    (oneServerShuttingDown.shutdown_signal).sent_stop = true ∧
    (oneServerShuttingDown.shutdown_signal).manager
        = oneServerShuttingDown.shutdown :=
  claim_C1_amended oneServerShuttingDown rfl

end Sanic
